import Mathlib

/-!
# Shallow embedding of the tslox interpreter core

This file embeds, in Lean 4, the parts of the `immigration9/tslox`
repository (a TypeScript port of the Crafting Interpreters tree-walking
interpreter) that the verification claims are about:

* the scanner (`src/scanner.ts`, class `Scanner`),
* the recursive-descent parser (`parser.ts`, class `Parser`),
* the environment chain (`src/environment.ts`, class `Environment`),
* the AST evaluator (`interpreter.ts`, class `Interpreter`).

Modelling conventions:

* JavaScript strings are modelled as `List Char` (scanner input) or
  `String` (lexemes, messages); all claim-relevant inputs are ASCII.
* JavaScript `number` (IEEE-754 double) is modelled by `LoxNum`: the
  special values `NaN`, `+Infinity`, `-Infinity` plus exact rationals
  for the finite values.  Rounding of finite arithmetic and the signed
  zero distinction are collapsed (no claim depends on them); the
  special-value behaviour that the claims do depend on (`NaN !== NaN`,
  division by zero producing an infinity or `NaN` rather than an
  error) is modelled faithfully.
* Mutable object state is passed explicitly.  Environments, whose
  object identity matters to the claims, live in an arena
  (`List EnvD`) indexed by `Nat`; the `enclosing` field stores the
  arena index of the parent.  Because the TypeScript code only ever
  constructs a new environment whose enclosing is an already-existing
  one, a child's index is always strictly greater than its parent's;
  the embedding's recursions over the chain use that decreasing index.
* Exceptions become `Except`; code that both mutates state and can
  throw returns a pair of `Except` result and the state at the moment
  of the throw (mirroring mutations that happened before the throw).
-/

/-! ## Runtime values (`expr.ts`: `LoxValue`) -/

/-- Model of the JavaScript `number` type: `NaN`, the two infinities,
and finite values as exact rationals. -/
inductive LoxNum where
  | nan : LoxNum
  | inf : LoxNum
  | ninf : LoxNum
  | fin : ℚ → LoxNum
deriving DecidableEq, Repr

/-- JavaScript strict equality `===` restricted to numbers:
`NaN` is equal to nothing (itself included); other values compare by
value. -/
def jsNumEq : LoxNum → LoxNum → Bool
  | .nan, _ => false
  | _, .nan => false
  | .inf, .inf => true
  | .inf, _ => false
  | .ninf, .ninf => true
  | .ninf, _ => false
  | .fin a, .fin b => a == b
  | .fin _, _ => false

/-- JavaScript `+` on numbers.  `NaN` propagates; opposite infinities
give `NaN`; finite addition is modelled exactly. -/
def jsAdd : LoxNum → LoxNum → LoxNum
  | .nan, _ => .nan
  | _, .nan => .nan
  | .inf, .ninf => .nan
  | .ninf, .inf => .nan
  | .inf, _ => .inf
  | _, .inf => .inf
  | .ninf, _ => .ninf
  | _, .ninf => .ninf
  | .fin a, .fin b => .fin (a + b)

/-- JavaScript binary `-` on numbers. -/
def jsSub : LoxNum → LoxNum → LoxNum
  | .nan, _ => .nan
  | _, .nan => .nan
  | .inf, .inf => .nan
  | .ninf, .ninf => .nan
  | .inf, _ => .inf
  | _, .ninf => .inf
  | .ninf, _ => .ninf
  | _, .inf => .ninf
  | .fin a, .fin b => .fin (a - b)

/-- JavaScript `*` on numbers (signed-zero distinction collapsed). -/
def jsMul : LoxNum → LoxNum → LoxNum
  | .nan, _ => .nan
  | _, .nan => .nan
  | .inf, .inf => .inf
  | .inf, .ninf => .ninf
  | .ninf, .inf => .ninf
  | .ninf, .ninf => .inf
  | .inf, .fin b => if b = 0 then .nan else if 0 < b then .inf else .ninf
  | .fin a, .inf => if a = 0 then .nan else if 0 < a then .inf else .ninf
  | .ninf, .fin b => if b = 0 then .nan else if 0 < b then .ninf else .inf
  | .fin a, .ninf => if a = 0 then .nan else if 0 < a then .ninf else .inf
  | .fin a, .fin b => .fin (a * b)

/-- JavaScript `/` on numbers: a total function.  Division by zero
yields an infinity (or `NaN` for `0/0`), never an error.  The
signed-zero distinction is collapsed, so `x / 0` for negative `x` is
modelled as `-Infinity` (as for a positive zero divisor). -/
def jsDiv : LoxNum → LoxNum → LoxNum
  | .nan, _ => .nan
  | _, .nan => .nan
  | .inf, .inf => .nan
  | .inf, .ninf => .nan
  | .ninf, .inf => .nan
  | .ninf, .ninf => .nan
  | .inf, .fin b => if 0 ≤ b then .inf else .ninf
  | .ninf, .fin b => if 0 ≤ b then .ninf else .inf
  | .fin _, .inf => .fin 0
  | .fin _, .ninf => .fin 0
  | .fin a, .fin b =>
      if b = 0 then
        if a = 0 then .nan else if 0 < a then .inf else .ninf
      else .fin (a / b)

/-- JavaScript unary `-` on numbers. -/
def jsNeg : LoxNum → LoxNum
  | .nan => .nan
  | .inf => .ninf
  | .ninf => .inf
  | .fin a => .fin (-a)

/-- JavaScript `<` on numbers (`NaN` compares false to everything). -/
def jsLt : LoxNum → LoxNum → Bool
  | .nan, _ => false
  | _, .nan => false
  | .ninf, .ninf => false
  | .ninf, _ => true
  | _, .ninf => false
  | .inf, _ => false
  | .fin _, .inf => true
  | .fin a, .fin b => decide (a < b)

/-- JavaScript `<=` on numbers (`NaN` compares false to everything). -/
def jsLe : LoxNum → LoxNum → Bool
  | .nan, _ => false
  | _, .nan => false
  | .ninf, _ => true
  | _, .ninf => false
  | _, .inf => true
  | .inf, _ => false
  | .fin a, .fin b => decide (a ≤ b)

/-- `expr.ts`: `type LoxValue = number | string | boolean | null`. -/
inductive LoxValue where
  | num : LoxNum → LoxValue
  | str : String → LoxValue
  | bool : Bool → LoxValue
  | nil : LoxValue
deriving DecidableEq, Repr

/-- JavaScript strict equality `===` on `LoxValue`: values of
different variants are never equal; numbers per `jsNumEq`; strings by
content; booleans by value; `null === null`. -/
def jsStrictEq : LoxValue → LoxValue → Bool
  | .num a, .num b => jsNumEq a b
  | .str a, .str b => a == b
  | .bool a, .bool b => a == b
  | .nil, .nil => true
  | _, _ => false

/-- `interpreter.ts`: `isTruthy` — `null` and `false` are falsy,
everything else truthy. -/
def isTruthy : LoxValue → Bool
  | .nil => false
  | .bool false => false
  | _ => true

/-! ## Tokens (`token.ts`) -/

/-- The lexical categories of tslox tokens.  The file `token.ts` is not
among the provided sources; the constructor list is the one the
scanner, parser and interpreter use (`TT.LEFT_PAREN` … `TT.EOF`),
completed with the reserved-word kinds the parser's `synchronize`
matches on. -/
inductive TokenType where
  | LEFT_PAREN | RIGHT_PAREN | LEFT_BRACE | RIGHT_BRACE
  | COMMA | DOT | MINUS | PLUS | SEMICOLON | SLASH | STAR
  | BANG | BANG_EQUAL | EQUAL | EQUAL_EQUAL
  | GREATER | GREATER_EQUAL | LESS | LESS_EQUAL
  | IDENTIFIER | STRING | NUMBER
  | AND | CLASS | ELSE | FALSE | FUN | FOR | IF | NIL | OR
  | PRINT | RETURN | SUPER | THIS | TRUE | VAR | WHILE
  | EOF
deriving DecidableEq, Repr

/-- Modelled from the spec: `token.ts` is missing from the sources, so
`Token` follows spec section 3 (Data Model) and the uses in the
provided files — an immutable record of kind, lexeme (exact source
slice), literal (`null` for tokens without one, modelled as `none`)
and 1-based line. -/
structure Token where
  type : TokenType
  lexeme : String
  literal : Option LoxValue
  line : Nat
deriving DecidableEq, Repr

/-! ## Scanner (`src/scanner.ts`, class `Scanner`)

The scanner's mutable fields (`source`, `tokens`, `start`, `current`,
`line`) become a state record; the side effect `Lox.error(line, msg)`
— which prints a diagnostic and sets `hadError` — is modelled by
appending `(line, msg)` to an `errors` list (`hadError` is `errors ≠ []`). -/

structure ScanState where
  source : List Char
  tokens : List Token
  start : Nat
  current : Nat
  line : Nat
  errors : List (Nat × String)
deriving DecidableEq, Repr

namespace Scanner

/-- `isAtEnd`: `current >= source.length`. -/
def isAtEnd (s : ScanState) : Bool :=
  decide (s.source.length ≤ s.current)

/-- `advance`: return the character at the cursor and move the cursor
one forward.  JavaScript `charAt` out of range returns the empty
string; the scanner only calls `advance` in range, and the embedding
uses the null character as the (unreachable) default. -/
def advance (s : ScanState) : Char × ScanState :=
  (s.source.getD s.current '\x00', { s with current := s.current + 1 })

/-- `peek`: the character at the cursor, `'\0'` at end of input; the
cursor does not move. -/
def peek (s : ScanState) : Char :=
  if isAtEnd s then '\x00' else s.source.getD s.current '\x00'

/-- `peekNext`: the character one past the cursor, `'\0'` when that is
out of range. -/
def peekNext (s : ScanState) : Char :=
  if s.source.length ≤ s.current + 1 then '\x00'
  else s.source.getD (s.current + 1) '\x00'

/-- `match(expected)`: consume the character at the cursor exactly when
it equals `expected`. -/
def matchChar (s : ScanState) (expected : Char) : Bool × ScanState :=
  if isAtEnd s then (false, s)
  else if s.source.getD s.current '\x00' ≠ expected then (false, s)
  else (true, { s with current := s.current + 1 })

/-- `addToken(type, literal)`: push a token whose lexeme is
`source.substring(start, current)`. -/
def addToken (s : ScanState) (ty : TokenType) (lit : Option LoxValue) : ScanState :=
  let text := String.mk ((s.source.drop s.start).take (s.current - s.start))
  { s with tokens := s.tokens ++ [⟨ty, text, lit, s.line⟩] }

/-- `Lox.error(line, message)`: record a lexical error (sets the
driver's `hadError` flag). -/
def lexError (s : ScanState) (msg : String) : ScanState :=
  { s with errors := s.errors ++ [(s.line, msg)] }

/-- `isDigit`: `c >= '0' && c <= '9'`. -/
def isDigit (c : Char) : Bool :=
  decide ('0' ≤ c ∧ c ≤ '9')

/-- The comment loop of the `/` case:
`while (this.peek() !== '\n' && !this.isAtEnd()) this.advance();`. -/
def skipLineComment (s : ScanState) : ScanState :=
  if h : peek s ≠ '\n' ∧ isAtEnd s = false then
    skipLineComment (advance s).2
  else s
termination_by s.source.length - s.current
decreasing_by
  simp only [advance, isAtEnd, decide_eq_false_iff_not, not_le] at *
  omega

/-- The body of `string()`: consume up to the closing quote, counting
interior newlines, then either report an unterminated string or emit a
`STRING` token whose literal is the contents between the quotes. -/
def scanString (s : ScanState) : ScanState :=
  if h : peek s ≠ '"' ∧ isAtEnd s = false then
    scanString (advance (if peek s = '\n' then { s with line := s.line + 1 } else s)).2
  else if isAtEnd s then lexError s "Unterminated string."
  else
    let s2 := (advance s).2
    let value := String.mk ((s2.source.drop (s2.start + 1)).take (s2.current - 1 - (s2.start + 1)))
    addToken s2 .STRING (some (.str value))
termination_by s.source.length - s.current
decreasing_by
  simp only [advance, isAtEnd, decide_eq_false_iff_not, not_le] at *
  split <;> simp <;> omega

/-- The digit loop of `number()`: `while (isDigit(peek())) advance()`. -/
def consumeDigits (s : ScanState) : ScanState :=
  if h : isDigit (peek s) = true then
    consumeDigits (advance s).2
  else s
termination_by s.source.length - s.current
decreasing_by
  by_cases hend : isAtEnd s = true
  · simp [peek, hend, isDigit] at h
  · simp only [advance]
    simp only [isAtEnd, decide_eq_true_eq] at hend
    omega

/-- Digit run to a natural number, most significant first. -/
def digitsToNat (cs : List Char) : Nat :=
  cs.foldl (fun n c => 10 * n + (c.toNat - Char.toNat '0')) 0

/-- Model of `Number.parseFloat` on the strings the number scanner
produces (digits, optionally a point and more digits): the exact
rational value (IEEE rounding collapsed; no claim depends on it). -/
def parseDecimal (cs : List Char) : ℚ :=
  let intPart := cs.takeWhile (fun c => c ≠ '.')
  let frac := (cs.dropWhile (fun c => c ≠ '.')).drop 1
  (digitsToNat intPart : ℚ) + (digitsToNat frac : ℚ) / ((10 : ℚ) ^ frac.length)

/-- The body of `number()`: integer part, optional fractional part,
then a `NUMBER` token carrying the parsed value. -/
def scanNumber (s : ScanState) : ScanState :=
  let s1 := consumeDigits s
  let s2 :=
    if peek s1 = '.' ∧ isDigit (peekNext s1) = true then
      consumeDigits (advance s1).2
    else s1
  let text := (s2.source.drop s2.start).take (s2.current - s2.start)
  addToken s2 .NUMBER (some (.num (.fin (parseDecimal text))))

/-- `scanToken`: advance over one character and dispatch.  Two
faithfulness notes: the `/` case of the source has no `break` and
falls through into the whitespace cases, whose shared body is empty,
so the fall-through adds no effect; and the `default` case only
recognises digits — there is no identifier/reserved-word branch, so
every other character (letters and `_` included) reports
"Unexpected character.". -/
def scanToken (s0 : ScanState) : ScanState :=
  let (c, s) := advance s0
  match c with
  | '(' => addToken s .LEFT_PAREN none
  | ')' => addToken s .RIGHT_PAREN none
  | '{' => addToken s .LEFT_BRACE none
  | '}' => addToken s .RIGHT_BRACE none
  | ',' => addToken s .COMMA none
  | '.' => addToken s .DOT none
  | '-' => addToken s .MINUS none
  | '+' => addToken s .PLUS none
  | ';' => addToken s .SEMICOLON none
  | '*' => addToken s .STAR none
  | '!' =>
      let (m, s1) := matchChar s '='
      addToken s1 (if m then .BANG_EQUAL else .BANG) none
  | '=' =>
      let (m, s1) := matchChar s '='
      addToken s1 (if m then .EQUAL_EQUAL else .EQUAL) none
  | '<' =>
      let (m, s1) := matchChar s '='
      addToken s1 (if m then .LESS_EQUAL else .LESS) none
  | '>' =>
      let (m, s1) := matchChar s '='
      addToken s1 (if m then .GREATER_EQUAL else .GREATER) none
  | '/' =>
      let (m, s1) := matchChar s '/'
      if m then skipLineComment s1 else addToken s1 .SLASH none
  | ' ' => s
  | '\r' => s
  | '\t' => s
  | '\n' => { s with line := s.line + 1 }
  | '"' => scanString s
  | c => if isDigit c then scanNumber s else lexError s "Unexpected character."

lemma skipLineComment_spec (s : ScanState) :
    ∃ k, s.current ≤ k ∧ skipLineComment s = { s with current := k } := by
  induction s using Scanner.skipLineComment.induct with
  | case1 s h ih =>
      rw [skipLineComment, dif_pos h]
      obtain ⟨k, hk, he⟩ := ih
      refine ⟨k, ?_, by rw [he]; simp [advance]⟩
      simp [advance] at hk; omega
  | case2 s h =>
      rw [skipLineComment, dif_neg h]
      exact ⟨s.current, le_refl _, rfl⟩

lemma skipLineComment_stop (s : ScanState) :
    (peek (skipLineComment s) = '\n' ∨ isAtEnd (skipLineComment s) = true)
      ∧ (skipLineComment s).current ≤ max s.current s.source.length
      ∧ ∀ j, s.current ≤ j → j < (skipLineComment s).current →
          s.source.getD j '\x00' ≠ '\n' := by
  induction s using Scanner.skipLineComment.induct with
  | case1 s h ih =>
      rw [skipLineComment, dif_pos h]
      obtain ⟨h1, h2⟩ := h
      obtain ⟨ih1, ih2, ih3⟩ := ih
      simp only [advance] at ih1 ih2 ih3 ⊢
      refine ⟨ih1, ?_, ?_⟩
      · simp only [isAtEnd, decide_eq_false_iff_not, not_le] at h2
        omega
      · intro j hj1 hj2
        rcases Nat.eq_or_lt_of_le hj1 with hj | hj
        · subst hj
          have hp : peek s = s.source.getD s.current '\x00' := by
            unfold peek; rw [h2]; simp
          rw [← hp]; exact h1
        · exact ih3 j hj hj2
  | case2 s h =>
      rw [skipLineComment, dif_neg h]
      constructor
      · by_cases hend : isAtEnd s = true
        · exact Or.inr hend
        · left
          simp only [hend, and_true, ne_eq, not_not] at h
          exact h
      · refine ⟨?_, fun j hj1 hj2 => absurd (lt_of_le_of_lt hj1 hj2) (lt_irrefl _)⟩
        by_cases hend : isAtEnd s = true
        · simp only [isAtEnd, decide_eq_true_eq] at hend
          omega
        · omega

lemma matchChar_cases (s : ScanState) (c : Char) :
    matchChar s c = (false, s)
      ∨ matchChar s c = (true, { s with current := s.current + 1 }) := by
  unfold matchChar
  split
  · exact Or.inl rfl
  · split
    · exact Or.inl rfl
    · exact Or.inr rfl

lemma scanString_inv (s : ScanState) :
    (scanString s).source = s.source ∧ s.current ≤ (scanString s).current := by
  induction s using Scanner.scanString.induct with
  | case1 s h ih =>
      rw [scanString, dif_pos h]
      obtain ⟨ih1, ih2⟩ := ih
      refine ⟨Eq.trans ih1 ?_, le_trans ?_ ih2⟩
      · simp only [advance]
        split <;> rfl
      · simp only [advance]
        split <;> simp
  | case2 s h hend =>
      rw [scanString, dif_neg h, if_pos hend]
      exact ⟨rfl, le_refl _⟩
  | case3 s h hend =>
      rw [scanString, dif_neg h, if_neg hend]
      simp [addToken, advance]

lemma consumeDigits_inv (s : ScanState) :
    ∃ k, s.current ≤ k ∧ consumeDigits s = { s with current := k } := by
  induction s using Scanner.consumeDigits.induct with
  | case1 s h ih =>
      rw [consumeDigits, dif_pos h]
      obtain ⟨k, hk, he⟩ := ih
      refine ⟨k, ?_, by rw [he]; simp [advance]⟩
      simp [advance] at hk; omega
  | case2 s h =>
      rw [consumeDigits, dif_neg h]
      exact ⟨s.current, le_refl _, rfl⟩

lemma scanNumber_inv (s : ScanState) :
    (scanNumber s).source = s.source ∧ s.current ≤ (scanNumber s).current := by
  rw [scanNumber]
  obtain ⟨k1, hk1, he1⟩ := consumeDigits_inv s
  simp only [he1]
  split
  · obtain ⟨k2, hk2, he2⟩ := consumeDigits_inv (advance { s with current := k1 }).2
    have hk2b : k1 + 1 ≤ k2 := hk2
    rw [he2]
    refine ⟨rfl, ?_⟩
    show s.current ≤ k2
    omega
  · refine ⟨rfl, ?_⟩
    show s.current ≤ k1
    omega

lemma skipLineComment_inv (s : ScanState) :
    (skipLineComment s).source = s.source ∧ s.current ≤ (skipLineComment s).current := by
  obtain ⟨k, hk, he⟩ := skipLineComment_spec s
  rw [he]
  exact ⟨rfl, hk⟩

lemma matchChar_snd_inv (s : ScanState) (c : Char) :
    (matchChar s c).2.source = s.source ∧ s.current ≤ (matchChar s c).2.current := by
  rcases matchChar_cases s c with h | h <;> rw [h]
  · exact ⟨rfl, le_refl _⟩
  · exact ⟨rfl, Nat.le_succ _⟩

lemma scanToken_inv (s : ScanState) :
    (scanToken s).source = s.source ∧ s.current + 1 ≤ (scanToken s).current := by
  rw [scanToken]
  simp only [advance]
  split
  case _ => simp [addToken]
  case _ => simp [addToken]
  case _ => simp [addToken]
  case _ => simp [addToken]
  case _ => simp [addToken]
  case _ => simp [addToken]
  case _ => simp [addToken]
  case _ => simp [addToken]
  case _ => simp [addToken]
  case _ => simp [addToken]
  case _ =>
    obtain ⟨m1, m2⟩ := matchChar_snd_inv { s with current := s.current + 1 } '='
    exact ⟨m1, m2⟩
  case _ =>
    obtain ⟨m1, m2⟩ := matchChar_snd_inv { s with current := s.current + 1 } '='
    exact ⟨m1, m2⟩
  case _ =>
    obtain ⟨m1, m2⟩ := matchChar_snd_inv { s with current := s.current + 1 } '='
    exact ⟨m1, m2⟩
  case _ =>
    obtain ⟨m1, m2⟩ := matchChar_snd_inv { s with current := s.current + 1 } '='
    exact ⟨m1, m2⟩
  case _ =>
    rcases matchChar_cases { s with current := s.current + 1 } '/' with h | h
    · simp [h, addToken]
    · simp only [h]
      have h2 := skipLineComment_inv (matchChar { s with current := s.current + 1 } '/').2
      rw [h] at h2
      simp only [Prod.fst, Prod.snd, if_true] at h2 ⊢
      exact ⟨h2.1, le_trans (Nat.le_succ _) h2.2⟩
  case _ => simp
  case _ => simp
  case _ => simp
  case _ => simp
  case _ =>
    simpa using scanString_inv { s with current := s.current + 1 }
  case _ =>
    split
    · simpa using scanNumber_inv { s with current := s.current + 1 }
    · simp [lexError]

end Scanner

namespace Scanner

/-- The `scanTokens` loop:
`while (!isAtEnd()) { start = current; scanToken(); }` — total because
`scanToken` always advances the cursor over an unchanged source. -/
def scanLoop (s : ScanState) : ScanState :=
  if h : isAtEnd s = false then
    scanLoop (scanToken { s with start := s.current })
  else s
termination_by s.source.length - s.current
decreasing_by
  obtain ⟨h1, h2⟩ := scanToken_inv { s with start := s.current }
  have h1b : (scanToken { s with start := s.current }).source = s.source := h1
  have h2b : s.current + 1 ≤ (scanToken { s with start := s.current }).current := h2
  simp only [isAtEnd, decide_eq_false_iff_not, not_le] at h
  rw [h1b]
  omega

/-- `scanTokens`: run the loop from the constructor's initial state
(`tokens = []`, `start = current = 0`, `line = 1`), then append the
final `EOF` token. -/
def scanTokens (source : List Char) : ScanState :=
  let s := scanLoop { source := source, tokens := [], start := 0, current := 0, line := 1, errors := [] }
  { s with tokens := s.tokens ++ [⟨.EOF, "", none, s.line⟩] }

end Scanner

/-- C1: counter-evidence.  The claim says that on input whose next
character is an ASCII letter or underscore the scanner emits a reserved
word or `IDENTIFIER` token and never reports a lexical error.  The
scanner's `default` branch has no identifier handling (it only checks
`isDigit`), so on the one-character sources `"a"` and `"_"` it records
the lexical error `Unexpected character.` and emits only the `EOF`
token. -/
theorem scanTokens_letter_input_reports_error :
    Scanner.scanTokens ['a']
      = { source := ['a'], tokens := [⟨TokenType.EOF, "", none, 1⟩], start := 0,
          current := 1, line := 1, errors := [(1, "Unexpected character.")] }
    ∧ Scanner.scanTokens ['_']
      = { source := ['_'], tokens := [⟨TokenType.EOF, "", none, 1⟩], start := 0,
          current := 1, line := 1, errors := [(1, "Unexpected character.")] } := by
  constructor
  · have step1 : Scanner.scanToken
        { source := ['a'], tokens := [], start := 0, current := 0, line := 1, errors := [] }
        = { source := ['a'], tokens := [], start := 0, current := 1, line := 1,
            errors := [(1, "Unexpected character.")] } := by decide
    simp only [Scanner.scanTokens]
    rw [Scanner.scanLoop, dif_pos (by decide)]
    norm_num [step1]
    rw [Scanner.scanLoop, dif_neg (by decide)]
    decide
  · have step1 : Scanner.scanToken
        { source := ['_'], tokens := [], start := 0, current := 0, line := 1, errors := [] }
        = { source := ['_'], tokens := [], start := 0, current := 1, line := 1,
            errors := [(1, "Unexpected character.")] } := by decide
    simp only [Scanner.scanTokens]
    rw [Scanner.scanLoop, dif_pos (by decide)]
    norm_num [step1]
    rw [Scanner.scanLoop, dif_neg (by decide)]
    decide

/-- C10: `scanToken` begins with an unconditional `advance`, so every
call moves the cursor at least one character forward over an unchanged
source; hence the `scanTokens` loop measure `source.length - current`
strictly decreases while not at end, and `scanLoop`/`scanTokens` are
total functions (their termination proofs use exactly this progress
property). -/
theorem scanToken_always_advances :
    ∀ s : ScanState,
      (Scanner.scanToken s).source = s.source
      ∧ s.current + 1 ≤ (Scanner.scanToken s).current
      ∧ (Scanner.isAtEnd s = false →
          (Scanner.scanToken s).source.length - (Scanner.scanToken s).current
            < s.source.length - s.current) := by
  intro s
  obtain ⟨h1, h2⟩ := Scanner.scanToken_inv s
  refine ⟨h1, h2, fun hend => ?_⟩
  rw [h1]
  simp only [Scanner.isAtEnd, decide_eq_false_iff_not, not_le] at hend
  omega

/-- Witness for C10 at the concrete state scanning `"x"` from the
start. -/
theorem scanToken_always_advances_witness :
    Scanner.isAtEnd ⟨['x'], [], 0, 0, 1, []⟩ = false
      ∧ (Scanner.scanToken ⟨['x'], [], 0, 0, 1, []⟩).source.length
          - (Scanner.scanToken ⟨['x'], [], 0, 0, 1, []⟩).current
            < (['x'] : List Char).length - 0 :=
  ⟨by decide, (scanToken_always_advances ⟨['x'], [], 0, 0, 1, []⟩).2.2 (by decide)⟩

lemma take_one_drop (l : List Char) (i : Nat) (hi : i < l.length) :
    (l.drop i).take 1 = [l.getD i '\x00'] := by
  rw [List.getD_eq_getElem l _ hi, List.drop_eq_getElem_cons hi]
  rfl

lemma getD_slash_in_range (l : List Char) (i : Nat) (h : l.getD i '\x00' = '/') :
    i < l.length := by
  by_contra hcon
  push_neg at hcon
  rw [List.getD_eq_default _ _ hcon] at h
  exact (by decide : ('\x00' : Char) ≠ '/') h

theorem scanToken_slash_case (s : ScanState)
    (hstart : s.start = s.current)
    (hc : s.source.getD s.current '\x00' = '/') :
    (s.source.getD (s.current + 1) '\x00' = '/' ∧ s.current + 1 < s.source.length →
        (Scanner.scanToken s).tokens = s.tokens
        ∧ (Scanner.scanToken s).line = s.line
        ∧ (Scanner.scanToken s).errors = s.errors
        ∧ (∀ j, s.current + 2 ≤ j → j < (Scanner.scanToken s).current →
            s.source.getD j '\x00' ≠ '\n')
        ∧ (s.source.length ≤ (Scanner.scanToken s).current
            ∨ s.source.getD (Scanner.scanToken s).current '\x00' = '\n'))
    ∧ (¬ (s.source.getD (s.current + 1) '\x00' = '/' ∧ s.current + 1 < s.source.length) →
        (Scanner.scanToken s).tokens = s.tokens ++ [⟨TokenType.SLASH, "/", none, s.line⟩]
        ∧ (Scanner.scanToken s).line = s.line
        ∧ (Scanner.scanToken s).errors = s.errors) := by
  have hin : s.current < s.source.length := getD_slash_in_range _ _ hc
  rw [Scanner.scanToken]
  simp only [Scanner.advance, hc]
  constructor
  · rintro ⟨h2, hlen⟩
    have hend : Scanner.isAtEnd { s with current := s.current + 1 } = false := by
      simp only [Scanner.isAtEnd, decide_eq_false_iff_not, not_le]
      omega
    have hm : Scanner.matchChar { s with current := s.current + 1 } '/'
        = (true, { s with current := s.current + 1 + 1 }) := by
      unfold Scanner.matchChar
      rw [hend]
      simp only [Bool.false_eq_true, if_false]
      rw [if_neg (by simp only [not_ne_iff]; exact h2)]
    simp only [hm, Prod.fst, Prod.snd, if_true]
    obtain ⟨k, hk, he⟩ := Scanner.skipLineComment_spec { s with current := s.current + 1 + 1 }
    obtain ⟨st1, stb, st3⟩ := Scanner.skipLineComment_stop { s with current := s.current + 1 + 1 }
    refine ⟨by rw [he], by rw [he], by rw [he], ?_, ?_⟩
    · intro j hj1 hj2
      exact st3 j hj1 hj2
    · rcases st1 with hpk | hend2
      · by_cases hend3 : Scanner.isAtEnd (Scanner.skipLineComment { s with current := s.current + 1 + 1 }) = true
        · left
          have : ((Scanner.skipLineComment { s with current := s.current + 1 + 1 }).source.length
              ≤ (Scanner.skipLineComment { s with current := s.current + 1 + 1 }).current) := by
            simpa [Scanner.isAtEnd] using hend3
          rw [he] at this ⊢
          exact this
        · right
          rw [Scanner.peek, if_neg] at hpk
          · rw [he] at hpk ⊢
            exact hpk
          · simp [hend3]
      · left
        have : ((Scanner.skipLineComment { s with current := s.current + 1 + 1 }).source.length
            ≤ (Scanner.skipLineComment { s with current := s.current + 1 + 1 }).current) := by
          simpa [Scanner.isAtEnd] using hend2
        rw [he] at this ⊢
        exact this
  · intro hneg
    have hm : Scanner.matchChar { s with current := s.current + 1 } '/'
        = (false, { s with current := s.current + 1 }) := by
      unfold Scanner.matchChar
      by_cases hend : Scanner.isAtEnd { s with current := s.current + 1 } = true
      · rw [hend]
        simp
      · have hend2 : Scanner.isAtEnd { s with current := s.current + 1 } = false :=
          Bool.eq_false_iff.mpr hend
        have hlen : s.current + 1 < s.source.length := by
          have := hend2
          simp only [Scanner.isAtEnd, decide_eq_false_iff_not, not_le] at this
          exact this
        have hne : s.source.getD (s.current + 1) '\x00' ≠ '/' := by
          intro hcon
          exact hneg ⟨hcon, hlen⟩
        rw [hend2]
        simp only [Bool.false_eq_true, if_false]
        rw [if_pos hne]
    simp only [hm, Prod.fst, Prod.snd, if_false]
    refine ⟨?_, rfl, rfl⟩
    show (Scanner.addToken { s with current := s.current + 1 } TokenType.SLASH none).tokens = _
    unfold Scanner.addToken
    simp only [hstart]
    rw [show s.current + 1 - s.current = 1 by omega, take_one_drop _ _ hin, hc]

/-- Witness for C8 at the concrete state scanning `"//a"` from the
start: the comment branch consumes the rest of the line, emits no
token and leaves line and errors unchanged. -/
theorem scanToken_slash_case_witness :
    ((⟨['/', '/', 'a'], [], 0, 0, 1, []⟩ : ScanState).start
        = (⟨['/', '/', 'a'], [], 0, 0, 1, []⟩ : ScanState).current)
    ∧ (['/', '/', 'a'] : List Char).getD 0 '\x00' = '/'
    ∧ ((['/', '/', 'a'] : List Char).getD (0 + 1) '\x00' = '/'
        ∧ 0 + 1 < (['/', '/', 'a'] : List Char).length)
    ∧ (Scanner.scanToken ⟨['/', '/', 'a'], [], 0, 0, 1, []⟩).tokens = []
    ∧ (Scanner.scanToken ⟨['/', '/', 'a'], [], 0, 0, 1, []⟩).line = 1
    ∧ (Scanner.scanToken ⟨['/', '/', 'a'], [], 0, 0, 1, []⟩).errors = [] := by
  refine ⟨rfl, by decide, by decide, ?_, ?_, ?_⟩
  · exact ((scanToken_slash_case ⟨['/', '/', 'a'], [], 0, 0, 1, []⟩ rfl (by decide)).1
      (by decide)).1
  · exact ((scanToken_slash_case ⟨['/', '/', 'a'], [], 0, 0, 1, []⟩ rfl (by decide)).1
      (by decide)).2.1
  · exact ((scanToken_slash_case ⟨['/', '/', 'a'], [], 0, 0, 1, []⟩ rfl (by decide)).1
      (by decide)).2.2.1

/-! ## AST (`expr.ts`, `stmt.ts`) -/

/-- Expression nodes (`expr.ts`): `Binary`, `Grouping`, `Literal`,
`Unary`, `VariableExpr`, `AssignExpr`. -/
inductive Expr where
  | binary (left : Expr) (op : Token) (right : Expr)
  | grouping (expression : Expr)
  | literal (value : LoxValue)
  | unary (op : Token) (right : Expr)
  | variableExpr (name : Token)
  | assignExpr (name : Token) (value : Expr)
deriving DecidableEq, Repr

mutual
/-- Statement nodes (`stmt.ts`): `ExpressionStmt`, `PrintStmt`,
`VarStmt`, `BlockStmt`.  `BlockStmt`'s `Stmt[]` field is modelled by
the companion list type `StmtList` so that statements and statement
lists can be traversed by mutual structural recursion. -/
inductive Stmt where
  | exprStmt (expression : Expr)
  | printStmt (expression : Expr)
  | varStmt (name : Token) (initializer : Option Expr)
  | blockStmt (statements : StmtList)
deriving Repr

/-- A list of statements (the `Stmt[]` of `BlockStmt`). -/
inductive StmtList where
  | nil
  | cons (head : Stmt) (tail : StmtList)
deriving Repr
end

/-! ## Parser (`parser.ts`, class `Parser`)

The parser's `current` index is threaded explicitly; `throw
ParseError(msg)` becomes `Except.error msg`, with the message
formatted exactly as `Parser.error` formats it.  The mutually
recursive descent is given a fuel argument (decremented at every
nested call) to make it structurally recursive; the declaration loop
supplies `8 * (tokens.length + 1)` fuel, ample for this grammar: the
fixed precedence chain is 7 levels deep and every further recursion
consumes at least one token first. -/

namespace Parser

/-- The default token returned when indexing out of range; the parser
never reaches it on token lists that end with `EOF`. -/
def dummyToken : Token := ⟨.EOF, "", none, 0⟩

/-- `peek()`: the token at `current`. -/
def peekT (ts : List Token) (cur : Nat) : Token := ts.getD cur dummyToken

/-- `previous()`: the token at `current - 1`. -/
def previousT (ts : List Token) (cur : Nat) : Token := ts.getD (cur - 1) dummyToken

/-- `isAtEnd()`: the current token is `EOF`. -/
def isAtEndP (ts : List Token) (cur : Nat) : Bool :=
  decide ((peekT ts cur).type = .EOF)

/-- `check(type)`: current token has the given type (false at end). -/
def checkT (ts : List Token) (cur : Nat) (ty : TokenType) : Bool :=
  if isAtEndP ts cur then false else decide ((peekT ts cur).type = ty)

/-- `match(...types)`: when some listed type checks, advance and
return the new `current`; otherwise `none`. -/
def matchT (ts : List Token) (cur : Nat) (tys : List TokenType) : Option Nat :=
  if tys.any (fun ty => checkT ts cur ty) then some (cur + 1) else none

/-- `Parser.error(token, message)`: the `ParseError` message,
formatted `[line N] Error at 'LEXEME': MESSAGE`. -/
def perror (tok : Token) (msg : String) : String :=
  "[line " ++ toString tok.line ++ "] Error at '" ++ tok.lexeme ++ "': " ++ msg

/-- `consume(type, message)`: advance past a token of the given type
or throw a `ParseError` at the current token. -/
def consumeT (ts : List Token) (cur : Nat) (ty : TokenType) (msg : String) :
    Except String (Token × Nat) :=
  if checkT ts cur ty then .ok (peekT ts cur, cur + 1)
  else .error (perror (peekT ts cur) msg)

/-- The expression nonterminals of the recursive-descent grammar.
The `...Loop` variants are the `while` loops of the corresponding
methods, carrying the accumulated left operand.  A single fuel-indexed
interpreter over these tags replaces the source's mutual recursion so
that concrete runs reduce definitionally; each tag's branch is the
body of the method of the same name in `parser.ts`. -/
inductive Rule where
  | expressionR | equalityR | comparisonR | additionR | multiplicationR | unaryR | primaryR
  | equalityLoop (e : Expr) | comparisonLoop (e : Expr)
  | additionLoop (e : Expr) | multiplicationLoop (e : Expr)

/-- One fuel-indexed interpreter for the mutually recursive expression
productions of `parser.ts` (`expression` = `equality`; binary levels
loop left-associatively; `unary` recurses; `primary` handles literals,
identifiers and grouping or throws "Expect expression."). -/
def runRule : Nat → Rule → List Token → Nat → Except String (Expr × Nat)
  | 0, _, _, _ => .error "out of fuel"
  | fuel + 1, r, ts, cur =>
      match r with
      | .expressionR => runRule fuel .equalityR ts cur
      | .equalityR => do
          let (e, cur1) ← runRule fuel .comparisonR ts cur
          runRule fuel (.equalityLoop e) ts cur1
      | .equalityLoop e =>
          match matchT ts cur [.BANG_EQUAL, .EQUAL_EQUAL] with
          | some cur1 => do
              let (r, cur2) ← runRule fuel .comparisonR ts cur1
              runRule fuel (.equalityLoop (.binary e (previousT ts cur1) r)) ts cur2
          | none => .ok (e, cur)
      | .comparisonR => do
          let (e, cur1) ← runRule fuel .additionR ts cur
          runRule fuel (.comparisonLoop e) ts cur1
      | .comparisonLoop e =>
          match matchT ts cur [.GREATER, .GREATER_EQUAL, .LESS, .LESS_EQUAL] with
          | some cur1 => do
              let (r, cur2) ← runRule fuel .additionR ts cur1
              runRule fuel (.comparisonLoop (.binary e (previousT ts cur1) r)) ts cur2
          | none => .ok (e, cur)
      | .additionR => do
          let (e, cur1) ← runRule fuel .multiplicationR ts cur
          runRule fuel (.additionLoop e) ts cur1
      | .additionLoop e =>
          match matchT ts cur [.MINUS, .PLUS] with
          | some cur1 => do
              let (r, cur2) ← runRule fuel .multiplicationR ts cur1
              runRule fuel (.additionLoop (.binary e (previousT ts cur1) r)) ts cur2
          | none => .ok (e, cur)
      | .multiplicationR => do
          let (e, cur1) ← runRule fuel .unaryR ts cur
          runRule fuel (.multiplicationLoop e) ts cur1
      | .multiplicationLoop e =>
          match matchT ts cur [.SLASH, .STAR] with
          | some cur1 => do
              let (r, cur2) ← runRule fuel .unaryR ts cur1
              runRule fuel (.multiplicationLoop (.binary e (previousT ts cur1) r)) ts cur2
          | none => .ok (e, cur)
      | .unaryR =>
          match matchT ts cur [.BANG, .MINUS] with
          | some cur1 => do
              let (r, cur2) ← runRule fuel .unaryR ts cur1
              .ok (.unary (previousT ts cur1) r, cur2)
          | none => runRule fuel .primaryR ts cur
      | .primaryR =>
          if let some cur1 := matchT ts cur [.FALSE] then
            .ok (.literal (.bool false), cur1)
          else if let some cur1 := matchT ts cur [.TRUE] then
            .ok (.literal (.bool true), cur1)
          else if let some cur1 := matchT ts cur [.NIL] then
            .ok (.literal .nil, cur1)
          else if let some cur1 := matchT ts cur [.NUMBER, .STRING] then
            .ok (.literal ((previousT ts cur1).literal.getD .nil), cur1)
          else if let some cur1 := matchT ts cur [.IDENTIFIER] then
            .ok (.variableExpr (previousT ts cur1), cur1)
          else if let some cur1 := matchT ts cur [.LEFT_PAREN] then do
            let (e, cur2) ← runRule fuel .expressionR ts cur1
            let (_, cur3) ← consumeT ts cur2 .RIGHT_PAREN "Expect ')' after expression."
            .ok (.grouping e, cur3)
          else
            .error (perror (peekT ts cur) "Expect expression.")

/-- `expression()`: simply `equality()` — the parser has no assignment
production. -/
def expression (fuel : Nat) (ts : List Token) (cur : Nat) :
    Except String (Expr × Nat) :=
  runRule fuel .expressionR ts cur

/-- `varDeclaration()`. -/
def varDeclaration (fuel : Nat) (ts : List Token) (cur : Nat) :
    Except String (Stmt × Nat) := do
  let (name, cur1) ← consumeT ts cur .IDENTIFIER "Expect variable name."
  match matchT ts cur1 [.EQUAL] with
  | some cur2 => do
      let (ini, cur3) ← expression fuel ts cur2
      let (_, cur4) ← consumeT ts cur3 .SEMICOLON "Expect ';' after variable declaration."
      .ok (.varStmt name (some ini), cur4)
  | none => do
      let (_, cur2) ← consumeT ts cur1 .SEMICOLON "Expect ';' after variable declaration."
      .ok (.varStmt name none, cur2)

/-- `printStatement()`. -/
def printStatement (fuel : Nat) (ts : List Token) (cur : Nat) :
    Except String (Stmt × Nat) := do
  let (v, cur1) ← expression fuel ts cur
  let (_, cur2) ← consumeT ts cur1 .SEMICOLON "Expect ';' after value."
  .ok (.printStmt v, cur2)

/-- `expressionStatement()`. -/
def expressionStatement (fuel : Nat) (ts : List Token) (cur : Nat) :
    Except String (Stmt × Nat) := do
  let (e, cur1) ← expression fuel ts cur
  let (_, cur2) ← consumeT ts cur1 .SEMICOLON "Expect ';' after expression."
  .ok (.exprStmt e, cur2)

/-- `statement()`: `printStmt | exprStmt` — the parser has no block
production. -/
def statement (fuel : Nat) (ts : List Token) (cur : Nat) :
    Except String (Stmt × Nat) :=
  match matchT ts cur [.PRINT] with
  | some cur1 => printStatement fuel ts cur1
  | none => expressionStatement fuel ts cur

/-- `declaration()`: `varDecl | statement`. -/
def declaration (fuel : Nat) (ts : List Token) (cur : Nat) :
    Except String (Stmt × Nat) :=
  match matchT ts cur [.VAR] with
  | some cur1 => varDeclaration fuel ts cur1
  | none => statement fuel ts cur

/-- The statement-boundary token kinds `synchronize` stops before. -/
def isBoundary (ty : TokenType) : Bool :=
  match ty with
  | .CLASS | .FUN | .VAR | .FOR | .IF | .WHILE | .PRINT | .RETURN => true
  | _ => false

/-- The `while` loop of `synchronize()`. -/
def synchronizeLoop : Nat → List Token → Nat → Nat
  | 0, _, cur => cur
  | fuel + 1, ts, cur =>
      if isAtEndP ts cur then cur
      else if (previousT ts cur).type = .SEMICOLON then cur
      else if isBoundary (peekT ts cur).type then cur
      else synchronizeLoop fuel ts (cur + 1)

/-- `synchronize()`: advance once, then discard tokens until just
after a `;` or just before a statement-opening keyword. -/
def synchronize (ts : List Token) (cur : Nat) : Nat :=
  synchronizeLoop (ts.length + 1) ts (if isAtEndP ts cur then cur else cur + 1)

/-- The `while` loop of `parse()`: on success push the statement and
continue; on a `ParseError`, `synchronize()` and then *rethrow* the
error (the `catch` block ends in `throw error`), so the loop never
continues past a failing declaration. -/
def parseLoop : Nat → List Token → Nat → List Stmt → Except String (List Stmt)
  | 0, _, _, _ => .error "out of fuel"
  | fuel + 1, ts, cur, acc =>
      if isAtEndP ts cur then .ok acc
      else
        match declaration (8 * (ts.length + 1)) ts cur with
        | .ok (s, cur1) => parseLoop fuel ts cur1 (acc ++ [s])
        | .error e =>
            let _sync := synchronize ts cur
            .error e

/-- `parse()`: run the declaration loop from position 0. -/
def parse (ts : List Token) : Except String (List Stmt) :=
  parseLoop (ts.length + 1) ts 0 []

end Parser

/-- C3: counter-evidence.  The claim says `IDENTIFIER '=' <expr>`
parses to an `Assign` expression.  The parser's `expression()` is just
`equality()` and no production handles `=`: on the tokens of `a = 1;`
the expression parser returns the bare `Variable` for `a` with the
`=` still unconsumed, and the statement parser then throws
`Expect ';' after expression.` at the `=` token — no `Assign` node is
ever built (yet `expr.ts` declares `AssignExpr`, the interpreter
implements `visitAssignExpr`, and the repo's own block-scope test uses
`a = "modified";`). -/
theorem parser_never_produces_assign :
    Parser.expression (8 * 6)
        [⟨.IDENTIFIER, "a", none, 1⟩, ⟨.EQUAL, "=", none, 1⟩,
         ⟨.NUMBER, "1", some (.num (.fin 1)), 1⟩, ⟨.SEMICOLON, ";", none, 1⟩,
         ⟨.EOF, "", none, 1⟩] 0
      = .ok (.variableExpr ⟨.IDENTIFIER, "a", none, 1⟩, 1)
    ∧ Parser.parse
        [⟨.IDENTIFIER, "a", none, 1⟩, ⟨.EQUAL, "=", none, 1⟩,
         ⟨.NUMBER, "1", some (.num (.fin 1)), 1⟩, ⟨.SEMICOLON, ";", none, 1⟩,
         ⟨.EOF, "", none, 1⟩]
      = .error "[line 1] Error at '=': Expect ';' after expression." :=
  ⟨rfl, rfl⟩

/-- C2: counterexample.  The claim says that on a token sequence with
a syntax error `parse` reports through the reporter, synchronizes and
resumes, returning normally.  On the tokens of `1 + ;` the embedded
`parse` instead propagates the thrown `ParseError` (the `catch` block
synchronizes and then rethrows): the call does not return normally. -/
theorem parse_error_does_not_return_normally :
    Parser.parse
        [⟨.NUMBER, "1", some (.num (.fin 1)), 1⟩, ⟨.PLUS, "+", none, 1⟩,
         ⟨.SEMICOLON, ";", none, 1⟩, ⟨.EOF, "", none, 1⟩]
      = .error "[line 1] Error at ';': Expect expression." :=
  rfl

/-- C2 (amended): whenever parsing the first declaration throws a
`ParseError`, `Parser.parse` synchronizes and then rethrows exactly
that first error: the call does not return normally, at most one
syntax error surfaces per call, and the reporter is never invoked
(`Parser.error` only constructs the `ParseError`; `hadError` is not
set by the parser). -/
theorem parse_rethrows_first_error (ts : List Token) (e : String)
    (hne : Parser.isAtEndP ts 0 = false)
    (hd : Parser.declaration (8 * (ts.length + 1)) ts 0 = .error e) :
    Parser.parse ts = .error e := by
  unfold Parser.parse
  rw [Parser.parseLoop, hne, hd]
  rfl

/-- Witness for the amended C2 at the tokens of `print ;`. -/
theorem parse_rethrows_first_error_witness :
    Parser.isAtEndP
        [⟨.PRINT, "print", none, 1⟩, ⟨.SEMICOLON, ";", none, 1⟩, ⟨.EOF, "", none, 1⟩] 0
      = false
    ∧ Parser.declaration (8 * (3 + 1))
        [⟨.PRINT, "print", none, 1⟩, ⟨.SEMICOLON, ";", none, 1⟩, ⟨.EOF, "", none, 1⟩] 0
      = .error "[line 1] Error at ';': Expect expression."
    ∧ Parser.parse
        [⟨.PRINT, "print", none, 1⟩, ⟨.SEMICOLON, ";", none, 1⟩, ⟨.EOF, "", none, 1⟩]
      = .error "[line 1] Error at ';': Expect expression." :=
  ⟨rfl, rfl, parse_rethrows_first_error _ _ rfl rfl⟩

/-! ## Runtime errors (`errors.ts`) -/

/-- `RuntimeError`: carries the responsible token and a message. -/
structure RuntimeError where
  token : Token
  message : String
deriving DecidableEq, Repr

/-! ## Environment (`src/environment.ts`, class `Environment`)

An `Environment` object is a mutable `Map<string, LoxValue>` plus a
read-only reference to the enclosing environment (`null` for the
global).  Object identity matters to the claims (the interpreter
restores "the same environment object"), so environments live in an
arena: `InterpState.envs : List EnvD`, and an environment reference is
an index into it.  The TypeScript constructor only ever links a new
environment to an already-existing one, so a child's index is strictly
greater than its parent's; `getIn`/`assignIn` recurse along
`enclosing` using that decreasing index (the `else` guard branches are
unreachable for states built this way). -/

/-- One environment object: its map (an association list in insertion
order, mirroring a JavaScript `Map`) and the arena index of the
enclosing environment. -/
structure EnvD where
  values : List (String × LoxValue)
  enclosing : Option Nat
deriving DecidableEq, Repr

/-- `Map.get` (first matching key; keys are unique). -/
def lookupA : List (String × LoxValue) → String → Option LoxValue
  | [], _ => none
  | (k0, v0) :: rest, k => if k0 == k then some v0 else lookupA rest k

/-- `Map.set`: overwrite the existing entry in place, else append. -/
def setA : List (String × LoxValue) → String → LoxValue → List (String × LoxValue)
  | [], k, v => [(k, v)]
  | (k0, v0) :: rest, k, v =>
      if k0 == k then (k0, v) :: rest else (k0, v0) :: setA rest k v

/-- `Environment.define(name, value)` on the environment at index `i`:
unconditionally set the binding there (create or overwrite). -/
def defineIn (envs : List EnvD) (i : Nat) (name : String) (v : LoxValue) : List EnvD :=
  match envs[i]? with
  | some e => envs.set i { e with values := setA e.values name v }
  | none => envs

/-- `Environment.get(nameToken)` starting at index `i`: if bound here
return it, else delegate to the enclosing environment, else throw
`Undefined variable 'NAME'.`. -/
def getIn (envs : List EnvD) (i : Nat) (tok : Token) : Except RuntimeError LoxValue :=
  match envs[i]? with
  | none => .error ⟨tok, "Undefined variable '" ++ tok.lexeme ++ "'."⟩
  | some e =>
      match lookupA e.values tok.lexeme with
      | some v => .ok v
      | none =>
          match e.enclosing with
          | some j =>
              if h : j < i then getIn envs j tok
              else .error ⟨tok, "Undefined variable '" ++ tok.lexeme ++ "'."⟩
          | none => .error ⟨tok, "Undefined variable '" ++ tok.lexeme ++ "'."⟩
termination_by i

/-- `Environment.assign(nameToken, value)` starting at index `i`: if
bound here overwrite, else try the enclosing environment, else throw
`Undefined variable 'NAME'.` — assignment never creates a binding. -/
def assignIn (envs : List EnvD) (i : Nat) (tok : Token) (v : LoxValue) :
    Except RuntimeError (List EnvD) :=
  match envs[i]? with
  | none => .error ⟨tok, "Undefined variable '" ++ tok.lexeme ++ "'."⟩
  | some e =>
      if (lookupA e.values tok.lexeme).isSome then
        .ok (envs.set i { e with values := setA e.values tok.lexeme v })
      else
        match e.enclosing with
        | some j =>
            if h : j < i then assignIn envs j tok v
            else .error ⟨tok, "Undefined variable '" ++ tok.lexeme ++ "'."⟩
        | none => .error ⟨tok, "Undefined variable '" ++ tok.lexeme ++ "'."⟩
termination_by i

/-- Where the walk of `get`/`assign` from index `i` first finds `name`
bound: the innermost environment of the chain binding it, `none` when
the name is bound nowhere along the chain. -/
def chainResolve (envs : List EnvD) (i : Nat) (name : String) : Option Nat :=
  match envs[i]? with
  | none => none
  | some e =>
      if (lookupA e.values name).isSome then some i
      else
        match e.enclosing with
        | some j => if h : j < i then chainResolve envs j name else none
        | none => none
termination_by i

/-! ## Interpreter (`interpreter.ts`, class `Interpreter`) -/

/-- The interpreter's mutable state: the environment arena, the index
of the current environment, and the lines printed so far
(`console.log`). -/
structure InterpState where
  envs : List EnvD
  current : Nat
  output : List String
deriving Repr

/-- `checkNumberOperand`: the operand's number, or the runtime error
`Operand must be a number.` carrying the operator token. -/
def checkNumberOperand (tok : Token) (v : LoxValue) : Except RuntimeError LoxNum :=
  match v with
  | .num n => .ok n
  | _ => .error ⟨tok, "Operand must be a number."⟩

/-- `stringify`: `null` prints as `nil`, every other value via its
`toString` (number formatting is a model rendering; no claim depends
on it). -/
def stringify : LoxValue → String
  | .nil => "nil"
  | .num .nan => "NaN"
  | .num .inf => "Infinity"
  | .num .ninf => "-Infinity"
  | .num (.fin q) => toString q
  | .str s => s
  | .bool b => if b then "true" else "false"

/-- The operator dispatch of `visitBinary` after both operands are
evaluated: `- / * > >= < <=` require numbers; `+` adds numbers or
concatenates strings and otherwise throws
`Operands must be two numbers or two strings.`; `!=`/`==` are strict
(in)equality; any other token type falls through to `return null`. -/
def binaryOp (tok : Token) (l r : LoxValue) : Except RuntimeError LoxValue :=
  match tok.type with
  | .MINUS => do
      let a ← checkNumberOperand tok l
      let b ← checkNumberOperand tok r
      return .num (jsSub a b)
  | .SLASH => do
      let a ← checkNumberOperand tok l
      let b ← checkNumberOperand tok r
      return .num (jsDiv a b)
  | .STAR => do
      let a ← checkNumberOperand tok l
      let b ← checkNumberOperand tok r
      return .num (jsMul a b)
  | .PLUS =>
      match l, r with
      | .num a, .num b => .ok (.num (jsAdd a b))
      | .str a, .str b => .ok (.str (a ++ b))
      | _, _ => .error ⟨tok, "Operands must be two numbers or two strings."⟩
  | .GREATER => do
      let a ← checkNumberOperand tok l
      let b ← checkNumberOperand tok r
      return .bool (jsLt b a)
  | .GREATER_EQUAL => do
      let a ← checkNumberOperand tok l
      let b ← checkNumberOperand tok r
      return .bool (jsLe b a)
  | .LESS => do
      let a ← checkNumberOperand tok l
      let b ← checkNumberOperand tok r
      return .bool (jsLt a b)
  | .LESS_EQUAL => do
      let a ← checkNumberOperand tok l
      let b ← checkNumberOperand tok r
      return .bool (jsLe a b)
  | .BANG_EQUAL => .ok (.bool (!jsStrictEq l r))
  | .EQUAL_EQUAL => .ok (.bool (jsStrictEq l r))
  | _ => .ok .nil

/-- The operator dispatch of `visitUnary` after the operand is
evaluated: `-` requires a number, `!` negates truthiness, any other
token type falls through to `return null`. -/
def unaryOp (tok : Token) (v : LoxValue) : Except RuntimeError LoxValue :=
  match tok.type with
  | .MINUS => do
      let n ← checkNumberOperand tok v
      return .num (jsNeg n)
  | .BANG => .ok (.bool (!isTruthy v))
  | _ => .ok .nil

/-- Expression evaluation (the `Visitor<LoxValue>` methods of
`Interpreter`): strict left-to-right, with the state at the moment of
a throw carried alongside the error. -/
def evalExpr : Expr → InterpState → Except RuntimeError LoxValue × InterpState
  | .literal v, st => (.ok v, st)
  | .grouping e, st => evalExpr e st
  | .unary op r, st =>
      match evalExpr r st with
      | (.ok v, st1) => (unaryOp op v, st1)
      | (.error er, st1) => (.error er, st1)
  | .binary l op r, st =>
      match evalExpr l st with
      | (.error er, st1) => (.error er, st1)
      | (.ok vl, st1) =>
          match evalExpr r st1 with
          | (.error er, st2) => (.error er, st2)
          | (.ok vr, st2) => (binaryOp op vl vr, st2)
  | .variableExpr name, st => (getIn st.envs st.current name, st)
  | .assignExpr name e, st =>
      match evalExpr e st with
      | (.error er, st1) => (.error er, st1)
      | (.ok v, st1) =>
          match assignIn st1.envs st1.current name v with
          | .ok envs2 => (.ok v, { st1 with envs := envs2 })
          | .error er => (.error er, st1)

mutual

/-- Statement execution (the `StmtVisitor<void>` methods of
`Interpreter`).  `visitBlockStmt` saves the current environment index,
installs a fresh environment enclosing it, runs the body, and restores
the saved index on both the normal and the error path (the
`try`/`finally`). -/
def execStmt : Stmt → InterpState → Except RuntimeError Unit × InterpState
  | .exprStmt e, st =>
      match evalExpr e st with
      | (.ok _, st1) => (.ok (), st1)
      | (.error er, st1) => (.error er, st1)
  | .printStmt e, st =>
      match evalExpr e st with
      | (.ok v, st1) => (.ok (), { st1 with output := st1.output ++ [stringify v] })
      | (.error er, st1) => (.error er, st1)
  | .varStmt name ini, st =>
      match ini with
      | some e =>
          match evalExpr e st with
          | (.ok v, st1) =>
              (.ok (), { st1 with envs := defineIn st1.envs st1.current name.lexeme v })
          | (.error er, st1) => (.error er, st1)
      | none =>
          (.ok (), { st with envs := defineIn st.envs st.current name.lexeme .nil })
  | .blockStmt ss, st =>
      let prev := st.current
      let st1 : InterpState :=
        { st with envs := st.envs ++ [⟨[], some prev⟩], current := st.envs.length }
      match execStmts ss st1 with
      | (r, st2) => (r, { st2 with current := prev })

/-- The `for (const statement of stmt.statements)` loop: execute in
order, stopping at the first thrown runtime error. -/
def execStmts : StmtList → InterpState → Except RuntimeError Unit × InterpState
  | .nil, st => (.ok (), st)
  | .cons s rest, st =>
      match execStmt s st with
      | (.ok _, st1) => execStmts rest st1
      | (.error er, st1) => (.error er, st1)

end

/-- The variant tag of a runtime value (number, string, boolean, nil). -/
def variantIdx : LoxValue → Nat
  | .num _ => 0
  | .str _ => 1
  | .bool _ => 2
  | .nil => 3

lemma jsNumEq_comm (a b : LoxNum) : jsNumEq a b = jsNumEq b a := by
  cases a <;> cases b <;> simp [jsNumEq]
  exact eq_comm

/-- C5: `Binary` with operator `+` evaluates both operands then adds
numbers, concatenates strings, and in every other case (and only
those) throws the runtime error `Operands must be two numbers or two
strings.` carrying the `+` token.  The first conjunct is the generic
dispatch of `visitBinary`: after both operands evaluate, the result is
`binaryOp` of the two values. -/
theorem plus_operator_semantics :
    (∀ (tok : Token) (e1 e2 : Expr) (st : InterpState) (v1 v2 : LoxValue)
        (st1 st2 : InterpState),
        evalExpr e1 st = (.ok v1, st1) → evalExpr e2 st1 = (.ok v2, st2) →
        evalExpr (.binary e1 tok e2) st = (binaryOp tok v1 v2, st2))
    ∧ (∀ (tok : Token), tok.type = .PLUS →
        (∀ a b, binaryOp tok (.num a) (.num b) = .ok (.num (jsAdd a b)))
        ∧ (∀ s t, binaryOp tok (.str s) (.str t) = .ok (.str (s ++ t)))
        ∧ (∀ l r, (¬ ∃ a b, l = .num a ∧ r = .num b) →
            (¬ ∃ s t, l = .str s ∧ r = .str t) →
            binaryOp tok l r
              = .error ⟨tok, "Operands must be two numbers or two strings."⟩)) := by
  constructor
  · intro tok e1 e2 st v1 v2 st1 st2 h1 h2
    simp only [evalExpr, h1, h2]
  · intro tok htok
    refine ⟨fun a b => by simp [binaryOp, htok], fun s t => by simp [binaryOp, htok], ?_⟩
    intro l r hnn hss
    cases l <;> cases r
    case num.num a b => exact absurd ⟨a, b, rfl, rfl⟩ hnn
    case str.str s t => exact absurd ⟨s, t, rfl, rfl⟩ hss
    all_goals simp [binaryOp, htok]

/-- C9: for `/`, when both evaluated operands are numbers the result
is always the (IEEE-modelled) quotient `jsDiv a b` — never a runtime
error, even when the right operand is zero (`jsDiv` is total; there is
no divide-by-zero check) — and the only failure of `/` is a
non-number operand, which throws `Operand must be a number.`. -/
theorem slash_total_on_numbers :
    (∀ (tok : Token), tok.type = .SLASH →
        (∀ a b, binaryOp tok (.num a) (.num b) = .ok (.num (jsDiv a b)))
        ∧ (∀ l r, ((∀ a, l ≠ .num a) ∨ (∀ b, r ≠ .num b)) →
            binaryOp tok l r = .error ⟨tok, "Operand must be a number."⟩))
    ∧ (∀ (tok : Token) (e1 e2 : Expr) (st : InterpState) (a b : LoxNum)
        (st1 st2 : InterpState),
        tok.type = .SLASH →
        evalExpr e1 st = (.ok (.num a), st1) →
        evalExpr e2 st1 = (.ok (.num b), st2) →
        evalExpr (.binary e1 tok e2) st = (.ok (.num (jsDiv a b)), st2)) := by
  constructor
  · intro tok htok
    refine ⟨fun a b => by simp [binaryOp, htok, checkNumberOperand, bind, Except.bind, Functor.map, Except.map, pure, Except.pure], ?_⟩
    intro l r hp
    rcases hp with hl | hr
    · cases l
      case num a => exact absurd rfl (hl a)
      all_goals simp [binaryOp, htok, checkNumberOperand, bind, Except.bind, Functor.map, Except.map, pure, Except.pure]
    · cases r
      case num b => exact absurd rfl (hr b)
      all_goals cases l <;> simp [binaryOp, htok, checkNumberOperand, bind, Except.bind, Functor.map, Except.map, pure, Except.pure]
  · intro tok e1 e2 st a b st1 st2 htok h1 h2
    simp only [evalExpr, h1, h2]
    simp [binaryOp, htok, checkNumberOperand, bind, Except.bind, Functor.map, Except.map, pure, Except.pure]

/-- C7: `==`/`!=` return strict (in)equality of the evaluated values
(`!=` is the negation of `==`), which compares by variant: `nil` only
equals `nil`, booleans by value, strings by content, numbers by IEEE
equality (`NaN != NaN`), different variants never equal; equality is
reflexive for every non-`NaN` value and symmetric for all values. -/
theorem equality_operator_semantics :
    (∀ (tok : Token) (l r : LoxValue), tok.type = .EQUAL_EQUAL →
        binaryOp tok l r = .ok (.bool (jsStrictEq l r)))
    ∧ (∀ (tok : Token) (l r : LoxValue), tok.type = .BANG_EQUAL →
        binaryOp tok l r = .ok (.bool (!jsStrictEq l r)))
    ∧ (∀ v, jsStrictEq .nil v = true ↔ v = .nil)
    ∧ (∀ a b, jsStrictEq (.bool a) (.bool b) = (a == b))
    ∧ (∀ s t, jsStrictEq (.str s) (.str t) = (s == t))
    ∧ (∀ a b, jsStrictEq (.num a) (.num b) = jsNumEq a b)
    ∧ jsNumEq .nan .nan = false
    ∧ (∀ l r, variantIdx l ≠ variantIdx r → jsStrictEq l r = false)
    ∧ (∀ v, v ≠ .num .nan → jsStrictEq v v = true)
    ∧ (∀ l r, jsStrictEq l r = jsStrictEq r l) := by
  refine ⟨?_, ?_, ?_, ?_, ?_, ?_, rfl, ?_, ?_, ?_⟩
  · intro tok l r htok
    simp [binaryOp, htok]
  · intro tok l r htok
    simp [binaryOp, htok]
  · intro v
    cases v <;> simp [jsStrictEq]
  · intro a b; rfl
  · intro s t; rfl
  · intro a b; rfl
  · intro l r hv
    cases l <;> cases r <;> simp [jsStrictEq] <;> simp [variantIdx] at hv
  · intro v hv
    cases v
    case num n =>
      cases n
      case nan => exact absurd rfl hv
      case inf => rfl
      case ninf => rfl
      case fin q => simp [jsStrictEq, jsNumEq]
    case str s => simp [jsStrictEq]
    case bool b => simp [jsStrictEq]
    case nil => rfl
  · intro l r
    cases l <;> cases r <;> simp [jsStrictEq]
    · exact jsNumEq_comm _ _
    · exact eq_comm
    · exact eq_comm

/-- Witness for C5: `1 + 2` adds; `"a" + 1` (spec scenario 4) throws
`Operands must be two numbers or two strings.`. -/
theorem plus_operator_semantics_witness :
    binaryOp ⟨.PLUS, "+", none, 1⟩ (.num (.fin 1)) (.num (.fin 2))
      = .ok (.num (jsAdd (.fin 1) (.fin 2)))
    ∧ binaryOp ⟨.PLUS, "+", none, 1⟩ (.str "a") (.num (.fin 1))
      = .error ⟨⟨.PLUS, "+", none, 1⟩, "Operands must be two numbers or two strings."⟩ := by
  have h := plus_operator_semantics
  refine ⟨(h.2 ⟨.PLUS, "+", none, 1⟩ rfl).1 (.fin 1) (.fin 2), ?_⟩
  exact (h.2 ⟨.PLUS, "+", none, 1⟩ rfl).2.2 (.str "a") (.num (.fin 1))
    (by rintro ⟨a, b, h1, h2⟩; cases h1) (by rintro ⟨s, t, h1, h2⟩; cases h2)

/-- Witness for C9: evaluating `1 / 0` succeeds with the IEEE quotient
(`Infinity`), no runtime error. -/
theorem slash_total_on_numbers_witness :
    evalExpr (.binary (.literal (.num (.fin 1))) ⟨.SLASH, "/", none, 1⟩
        (.literal (.num (.fin 0)))) ⟨[⟨[], none⟩], 0, []⟩
      = (.ok (.num (jsDiv (.fin 1) (.fin 0))), ⟨[⟨[], none⟩], 0, []⟩)
    ∧ jsDiv (.fin 1) (.fin 0) = .inf :=
  ⟨slash_total_on_numbers.2 ⟨.SLASH, "/", none, 1⟩ _ _ _ _ _ _ _ rfl rfl rfl, by decide⟩

/-- Witness for C7: `NaN == NaN` evaluates to `false`; `nil != nil`
evaluates to `false`. -/
theorem equality_operator_semantics_witness :
    binaryOp ⟨.EQUAL_EQUAL, "==", none, 1⟩ (.num .nan) (.num .nan) = .ok (.bool false)
    ∧ binaryOp ⟨.BANG_EQUAL, "!=", none, 1⟩ .nil .nil = .ok (.bool false) := by
  have h := equality_operator_semantics
  constructor
  · simpa using h.1 ⟨.EQUAL_EQUAL, "==", none, 1⟩ (.num .nan) (.num .nan) rfl
  · simpa using h.2.1 ⟨.BANG_EQUAL, "!=", none, 1⟩ .nil .nil rfl

lemma lookupA_setA (m : List (String × LoxValue)) (k : String) (v : LoxValue)
    (name : String) :
    lookupA (setA m k v) name = if name = k then some v else lookupA m name := by
  induction m with
  | nil =>
      by_cases h : name = k
      · subst h
        simp [setA, lookupA]
      · have hb : (k == name) = false := beq_eq_false_iff_ne.mpr (Ne.symm h)
        simp [setA, lookupA, hb, h]
  | cons p rest ih =>
      obtain ⟨k0, v0⟩ := p
      by_cases h0 : k0 = k
      · subst h0
        simp only [setA, beq_self_eq_true, if_true]
        by_cases h : name = k0
        · subst h
          simp [lookupA]
        · have hb : (k0 == name) = false := beq_eq_false_iff_ne.mpr (Ne.symm h)
          simp [lookupA, hb, h]
      · have hb0 : (k0 == k) = false := beq_eq_false_iff_ne.mpr h0
        simp only [setA, hb0, if_false]
        by_cases h : name = k0
        · have hb : (k0 == name) = true := beq_iff_eq.mpr h.symm
          have hnk : ¬ name = k := fun hh => h0 (h.symm.trans hh)
          simp [lookupA, hb, hnk]
        · have hb : (k0 == name) = false := beq_eq_false_iff_ne.mpr (Ne.symm h)
          simp [lookupA, hb, ih]

lemma lookupA_setA_isSome (m : List (String × LoxValue)) (k : String) (v : LoxValue)
    (h : (lookupA m k).isSome = true) (name : String) :
    (lookupA (setA m k v) name).isSome = (lookupA m name).isSome := by
  rw [lookupA_setA]
  by_cases hn : name = k
  · subst hn
    simp [h]
  · simp [hn]

lemma assignIn_ok_preserves :
    ∀ (envs : List EnvD) (i : Nat) (tok : Token) (v : LoxValue) (envs' : List EnvD),
      assignIn envs i tok v = .ok envs' →
      envs'.length = envs.length
      ∧ ∀ (k : Nat) (ek : EnvD), envs[k]? = some ek → ∃ ek', envs'[k]? = some ek'
          ∧ ek'.enclosing = ek.enclosing
          ∧ ∀ name, (lookupA ek'.values name).isSome = (lookupA ek.values name).isSome := by
  intro envs i tok v
  induction i, tok, v using assignIn.induct envs with
  | case1 i tok v hget =>
      intro envs' hok
      rw [assignIn] at hok
      simp [hget] at hok
  | case2 i tok v e hget hb =>
      intro envs' hok
      rw [assignIn] at hok
      simp only [hget, hb, if_true] at hok
      cases hok
      have hlt : i < envs.length := by
        have := List.getElem?_eq_some_iff.mp hget
        exact this.1
      refine ⟨List.length_set _ _ _, ?_⟩
      intro k ek hk
      by_cases hki : k = i
      · subst hki
        rw [hget] at hk
        cases hk
        refine ⟨_, List.getElem?_set_eq_of_lt _ hlt, rfl, ?_⟩
        exact fun name => lookupA_setA_isSome _ _ _ hb name
      · refine ⟨ek, ?_, rfl, fun _ => rfl⟩
        rw [List.getElem?_set_ne (fun hh => hki hh.symm), hk]
  | case3 i tok v e hget hb j0 henc hj ih =>
      intro envs' hok
      rw [assignIn] at hok
      simp only [hget, hb, henc, hj, dite_true, if_false, Bool.false_eq_true] at hok
      exact ih envs' hok
  | case4 i tok v e hget hb j0 henc hj =>
      intro envs' hok
      rw [assignIn] at hok
      simp [hget, hb, henc, hj] at hok
  | case5 i tok v e hget hb henc =>
      intro envs' hok
      rw [assignIn] at hok
      simp [hget, hb, henc] at hok

/-- C6: `Environment.assign` walking the chain from index `i`:
when the name is bound somewhere along the chain, the innermost such
environment (`chainResolve`) has its binding overwritten in place and
nothing else changes; when the name is bound nowhere, the runtime
error `Undefined variable 'NAME'.` is thrown carrying the name token;
and a successful assignment never creates a binding — every
environment keeps exactly its domain (and its enclosing link), and the
arena length is unchanged. -/
theorem environment_assign_semantics :
    (∀ (envs : List EnvD) (i : Nat) (tok : Token) (v : LoxValue) (j : Nat),
        chainResolve envs i tok.lexeme = some j →
        ∃ e, envs[j]? = some e ∧ (lookupA e.values tok.lexeme).isSome = true
          ∧ assignIn envs i tok v
              = .ok (envs.set j { e with values := setA e.values tok.lexeme v }))
    ∧ (∀ (envs : List EnvD) (i : Nat) (tok : Token) (v : LoxValue),
        chainResolve envs i tok.lexeme = none →
        assignIn envs i tok v
          = .error ⟨tok, "Undefined variable '" ++ tok.lexeme ++ "'."⟩)
    ∧ (∀ (envs : List EnvD) (i : Nat) (tok : Token) (v : LoxValue) (envs' : List EnvD),
        assignIn envs i tok v = .ok envs' →
        envs'.length = envs.length
        ∧ ∀ (k : Nat) (ek : EnvD), envs[k]? = some ek → ∃ ek', envs'[k]? = some ek'
            ∧ ek'.enclosing = ek.enclosing
            ∧ ∀ name, (lookupA ek'.values name).isSome = (lookupA ek.values name).isSome) := by
  refine ⟨?_, ?_, ?_⟩
  · intro envs i tok v
    induction i, tok, v using assignIn.induct envs with
    | case1 i tok v hget =>
        intro j hres
        rw [chainResolve] at hres
        simp [hget] at hres
    | case2 i tok v e hget hb =>
        intro j hres
        rw [chainResolve] at hres
        simp only [hget, hb, if_true] at hres
        rw [assignIn]
        simp only [hget, hb, if_true]
        cases hres
        exact ⟨e, hget, hb, rfl⟩
    | case3 i tok v e hget hb j0 henc hj ih =>
        intro j hres
        rw [chainResolve] at hres
        simp only [hget, hb, henc, hj, dite_true, if_false, Bool.false_eq_true] at hres
        rw [assignIn]
        simp only [hget, hb, henc, hj, dite_true, if_false, Bool.false_eq_true]
        exact ih j hres
    | case4 i tok v e hget hb j0 henc hj =>
        intro j hres
        rw [chainResolve] at hres
        simp [hget, hb, henc, hj] at hres
    | case5 i tok v e hget hb henc =>
        intro j hres
        rw [chainResolve] at hres
        simp [hget, hb, henc] at hres
  · intro envs i tok v
    induction i, tok, v using assignIn.induct envs with
    | case1 i tok v hget =>
        intro hres
        rw [assignIn]
        simp [hget]
    | case2 i tok v e hget hb =>
        intro hres
        rw [chainResolve] at hres
        simp [hget, hb] at hres
    | case3 i tok v e hget hb j0 henc hj ih =>
        intro hres
        rw [chainResolve] at hres
        simp only [hget, hb, henc, hj, dite_true, if_false, Bool.false_eq_true] at hres
        rw [assignIn]
        simp only [hget, hb, henc, hj, dite_true, if_false, Bool.false_eq_true]
        exact ih hres
    | case4 i tok v e hget hb j0 henc hj =>
        intro hres
        rw [assignIn]
        simp [hget, hb, henc, hj]
    | case5 i tok v e hget hb henc =>
        intro hres
        rw [assignIn]
        simp [hget, hb, henc]
  · exact assignIn_ok_preserves

/-- Witness for C6 on the two-environment chain global `{x -> 1}`
with an empty child: assigning `x` from the child overwrites the
global binding; assigning an unbound `y` fails with
`Undefined variable 'y'.`. -/
theorem environment_assign_semantics_witness :
    chainResolve [⟨[("x", LoxValue.num (.fin 1))], none⟩, ⟨[], some 0⟩] 1 "x" = some 0
    ∧ assignIn [⟨[("x", LoxValue.num (.fin 1))], none⟩, ⟨[], some 0⟩] 1
        ⟨.IDENTIFIER, "x", none, 1⟩ (.num (.fin 2))
        = .ok [⟨[("x", LoxValue.num (.fin 2))], none⟩, ⟨[], some 0⟩]
    ∧ chainResolve [⟨[("x", LoxValue.num (.fin 1))], none⟩, ⟨[], some 0⟩] 1 "y" = none
    ∧ assignIn [⟨[("x", LoxValue.num (.fin 1))], none⟩, ⟨[], some 0⟩] 1
        ⟨.IDENTIFIER, "y", none, 1⟩ (.num (.fin 2))
        = .error ⟨⟨.IDENTIFIER, "y", none, 1⟩, "Undefined variable '" ++ "y" ++ "'."⟩ := by
  have hres : chainResolve [⟨[("x", LoxValue.num (.fin 1))], none⟩, ⟨[], some 0⟩] 1 "x"
      = some 0 := by
    simp [chainResolve, lookupA]
  have hnone : chainResolve [⟨[("x", LoxValue.num (.fin 1))], none⟩, ⟨[], some 0⟩] 1 "y"
      = none := by
    simp [chainResolve, lookupA]
  refine ⟨hres, ?_, hnone, ?_⟩
  · obtain ⟨e, he, hbe, hassign⟩ :=
      environment_assign_semantics.1 [⟨[("x", LoxValue.num (.fin 1))], none⟩, ⟨[], some 0⟩]
        1 ⟨.IDENTIFIER, "x", none, 1⟩ (.num (.fin 2)) 0 hres
    have he2 : (⟨[("x", LoxValue.num (.fin 1))], none⟩ : EnvD) = e := by
      have hx : ([⟨[("x", LoxValue.num (.fin 1))], none⟩, ⟨[], some 0⟩] : List EnvD)[0]?
          = some ⟨[("x", LoxValue.num (.fin 1))], none⟩ := rfl
      rw [hx] at he
      exact Option.some.inj he
    subst he2
    rw [hassign]
    rfl
  · exact environment_assign_semantics.2.1
      [⟨[("x", LoxValue.num (.fin 1))], none⟩, ⟨[], some 0⟩] 1
      ⟨.IDENTIFIER, "y", none, 1⟩ (.num (.fin 2)) hnone

/-- The environment arena only grows, and every existing environment
keeps its enclosing link (its contents may change). -/
def envsExtends (old new : List EnvD) : Prop :=
  old.length ≤ new.length
  ∧ ∀ (i : Nat) (e : EnvD), old[i]? = some e →
      ∃ e', new[i]? = some e' ∧ e'.enclosing = e.enclosing

lemma envsExtends_refl (l : List EnvD) : envsExtends l l :=
  ⟨le_refl _, fun _ e he => ⟨e, he, rfl⟩⟩

lemma envsExtends_trans {a b c : List EnvD}
    (h1 : envsExtends a b) (h2 : envsExtends b c) : envsExtends a c := by
  refine ⟨le_trans h1.1 h2.1, fun i e he => ?_⟩
  obtain ⟨e1, he1, henc1⟩ := h1.2 i e he
  obtain ⟨e2, he2, henc2⟩ := h2.2 i e1 he1
  exact ⟨e2, he2, henc2.trans henc1⟩

lemma envsExtends_concat (l : List EnvD) (x : EnvD) : envsExtends l (l ++ [x]) := by
  refine ⟨by simp, fun i e he => ?_⟩
  have hlt : i < l.length := (List.getElem?_eq_some_iff.mp he).1
  refine ⟨e, ?_, rfl⟩
  rw [List.getElem?_append, if_pos hlt]
  exact he

lemma defineIn_extends (envs : List EnvD) (i : Nat) (name : String) (v : LoxValue) :
    envsExtends envs (defineIn envs i name v) := by
  rw [defineIn]
  split
  next e hget =>
    have hlt : i < envs.length := (List.getElem?_eq_some_iff.mp hget).1
    refine ⟨by simp, fun k ek hk => ?_⟩
    by_cases hki : k = i
    · subst hki
      rw [hget] at hk
      cases hk
      exact ⟨_, List.getElem?_set_eq_of_lt _ hlt, rfl⟩
    · exact ⟨ek, by rw [List.getElem?_set_ne (fun hh => hki hh.symm)]; exact hk, rfl⟩
  next hget => exact envsExtends_refl _

lemma assignIn_extends (envs : List EnvD) (i : Nat) (tok : Token) (v : LoxValue)
    (envs' : List EnvD) (h : assignIn envs i tok v = .ok envs') :
    envsExtends envs envs' := by
  obtain ⟨hlen, hall⟩ := assignIn_ok_preserves envs i tok v envs' h
  refine ⟨le_of_eq hlen.symm, fun k e he => ?_⟩
  obtain ⟨e', he', henc, _⟩ := hall k e he
  exact ⟨e', he', henc⟩

lemma evalExpr_extends (e : Expr) (st : InterpState) :
    envsExtends st.envs (evalExpr e st).2.envs := by
  induction e generalizing st with
  | literal v => exact envsExtends_refl _
  | grouping e ih => exact ih st
  | unary op r ih =>
      rw [evalExpr]
      split
      next v st1 heq =>
        have h := ih st
        rw [heq] at h
        exact h
      next er st1 heq =>
        have h := ih st
        rw [heq] at h
        exact h
  | binary l op r ihl ihr =>
      rw [evalExpr]
      split
      next er st1 heq =>
        have hl := ihl st
        rw [heq] at hl
        exact hl
      next vl st1 heq =>
        have hl := ihl st
        rw [heq] at hl
        split
        next er st2 heq2 =>
          have hr := ihr st1
          rw [heq2] at hr
          exact envsExtends_trans hl hr
        next vr st2 heq2 =>
          have hr := ihr st1
          rw [heq2] at hr
          exact envsExtends_trans hl hr
  | variableExpr name => exact envsExtends_refl _
  | assignExpr name e ih =>
      rw [evalExpr]
      split
      next er st1 heq =>
        have h := ih st
        rw [heq] at h
        exact h
      next v st1 heq =>
        have h := ih st
        rw [heq] at h
        split
        next envs2 heq2 =>
          exact envsExtends_trans h (assignIn_extends _ _ _ _ _ heq2)
        next er heq2 => exact h

lemma execStmt_exprStmt (e : Expr) (st : InterpState) :
    execStmt (.exprStmt e) st
      = match evalExpr e st with
        | (.ok _, st1) => (.ok (), st1)
        | (.error er, st1) => (.error er, st1) := by
  rw [execStmt.eq_def]

lemma execStmt_printStmt (e : Expr) (st : InterpState) :
    execStmt (.printStmt e) st
      = match evalExpr e st with
        | (.ok v, st1) => (.ok (), { st1 with output := st1.output ++ [stringify v] })
        | (.error er, st1) => (.error er, st1) := by
  rw [execStmt.eq_def]

lemma execStmt_varStmt (name : Token) (ini : Option Expr) (st : InterpState) :
    execStmt (.varStmt name ini) st
      = match ini with
        | some e =>
            match evalExpr e st with
            | (.ok v, st1) =>
                (.ok (), { st1 with envs := defineIn st1.envs st1.current name.lexeme v })
            | (.error er, st1) => (.error er, st1)
        | none =>
            (.ok (), { st with envs := defineIn st.envs st.current name.lexeme .nil }) := by
  rw [execStmt.eq_def]

lemma execStmt_blockStmt (ss : StmtList) (st : InterpState) :
    execStmt (.blockStmt ss) st
      = match execStmts ss
            { st with envs := st.envs ++ [⟨[], some st.current⟩],
                      current := st.envs.length } with
        | (r, st2) => (r, { st2 with current := st.current }) := by
  rw [execStmt.eq_def]

lemma execStmts_nil (st : InterpState) : execStmts .nil st = (.ok (), st) := by
  rw [execStmts.eq_def]

lemma execStmts_cons (s : Stmt) (rest : StmtList) (st : InterpState) :
    execStmts (.cons s rest) st
      = match execStmt s st with
        | (.ok _, st1) => execStmts rest st1
        | (.error er, st1) => (.error er, st1) := by
  rw [execStmts.eq_def]

mutual

theorem execStmt_extends (s : Stmt) (st : InterpState) :
    envsExtends st.envs (execStmt s st).2.envs := by
  cases s with
  | exprStmt e =>
      rw [execStmt_exprStmt]
      split
      next st1 heq =>
        have h := evalExpr_extends e st
        rw [heq] at h
        exact h
      next er st1 heq =>
        have h := evalExpr_extends e st
        rw [heq] at h
        exact h
  | printStmt e =>
      rw [execStmt_printStmt]
      split
      next v st1 heq =>
        have h := evalExpr_extends e st
        rw [heq] at h
        exact h
      next er st1 heq =>
        have h := evalExpr_extends e st
        rw [heq] at h
        exact h
  | varStmt name ini =>
      rw [execStmt_varStmt]
      split
      next e =>
        split
        next v st1 heq =>
          have h := evalExpr_extends e st
          rw [heq] at h
          exact envsExtends_trans h (defineIn_extends _ _ _ _)
        next er st1 heq =>
          have h := evalExpr_extends e st
          rw [heq] at h
          exact h
      next => exact defineIn_extends _ _ _ _
  | blockStmt ss =>
      rw [execStmt_blockStmt]
      split
      next r st2 heq =>
        have hb := execStmts_extends ss
            { st with envs := st.envs ++ [⟨[], some st.current⟩],
                      current := st.envs.length }
        rw [heq] at hb
        exact envsExtends_trans (envsExtends_concat _ _) hb

theorem execStmts_extends (ss : StmtList) (st : InterpState) :
    envsExtends st.envs (execStmts ss st).2.envs := by
  cases ss with
  | nil =>
      rw [execStmts_nil]
      exact envsExtends_refl _
  | cons s rest =>
      rw [execStmts_cons]
      split
      next st1 heq =>
        have h1 := execStmt_extends s st
        rw [heq] at h1
        exact envsExtends_trans h1 (execStmts_extends rest st1)
      next er st1 heq =>
        have h1 := execStmt_extends s st
        rw [heq] at h1
        exact h1

end

/-- C4: `visitBlockStmt` installs a fresh environment (appended to the
arena at index `st.envs.length`) whose enclosing link is the previous
current environment, executes the body there, and the interpreter's
current environment afterwards is the same environment (same arena
index) as before — on every exit path, since the result state is built
the same way whether the body returned normally or threw (the
`try`/`finally`).  The fresh environment still sits at its index with
its enclosing link intact after execution. -/
theorem visitBlockStmt_restores_environment (ss : StmtList) (st : InterpState) :
    (execStmt (.blockStmt ss) st).2.current = st.current
    ∧ ∃ e, (execStmt (.blockStmt ss) st).2.envs[st.envs.length]? = some e
        ∧ e.enclosing = some st.current := by
  rw [execStmt_blockStmt]
  split
  next r st2 heq =>
    refine ⟨rfl, ?_⟩
    have hb := execStmts_extends ss
        { st with envs := st.envs ++ [⟨[], some st.current⟩],
                  current := st.envs.length }
    rw [heq] at hb
    have hidx : (st.envs ++ [(⟨[], some st.current⟩ : EnvD)])[st.envs.length]?
        = some ⟨[], some st.current⟩ := by
      rw [List.getElem?_append, if_neg (lt_irrefl _)]
      simp
    obtain ⟨e', he', henc⟩ := hb.2 st.envs.length _ hidx
    exact ⟨e', he', by rw [henc]⟩
